import Mathlib

/-!
Verification of the Syntra backend core: the structured-response parsing and
diagram validation/repair pipeline.

The JavaScript sources are embedded shallowly:
* JS strings are modelled as Lean `String`/`List Char` (one `Char` per code unit);
  the JS primitives `trim`, `slice`, `join`, `replace` (first-occurrence form with
  `$`-substitution in the replacement) and the global regex removal
  `replace(/\{\{DIAGRAM_\d+\}\}/g, '')` are given explicit executable models below.
* Asynchronous external effects (the Mermaid parser, the PlantUML rendering
  endpoint, and the generative-source repair calls) are modelled as oracles
  passed in explicitly; a repair call that rejects (network/API error) is an
  `Except.error`.  The per-call oracles are indexed by diagram index and attempt
  number so that distinct calls may observe distinct results.
* The repository contains two variants of the analyze handler: the compact one
  (`src/backend/src/index.js`) and the verbose logging one (first document of
  `src/unnamed/part_000`).  Their `buildPrompt` bodies and post-parse handling
  differ; both are embedded.  Their `extractText` and `validateAndFixDiagrams`
  agree up to logging, so a single embedding serves both.
-/

namespace Syntra

/-! ### JS string primitives -/

/-- Model of JS `String.prototype.trim` applied from the left on a char list. -/
def dropWs (cs : List Char) : List Char := cs.dropWhile Char.isWhitespace

/-- Model of JS `String.prototype.trim`: remove leading and trailing whitespace. -/
def jsTrim (s : String) : String :=
  String.mk (((dropWs s.toList).reverse.dropWhile Char.isWhitespace).reverse)

/-- Model of JS `s.slice(0, n)`: the first `n` code units of `s`. -/
def jsSlice (s : String) (n : Nat) : String :=
  String.mk (s.toList.take n)

/-- Model of JS `Array.prototype.join(sep)` on an array of strings. -/
def jsJoin (sep : String) : List String → String
  | [] => ""
  | [a] => a
  | a :: b :: rest => a ++ sep ++ jsJoin sep (b :: rest)

/-- Locate the first occurrence of `pat` in `s`, splitting `s` as
`before ++ pat ++ after` (the scan JS `String.prototype.replace` performs for a
string search value). -/
def splitFirst (pat : List Char) : List Char → Option (List Char × List Char)
  | [] => if pat.isPrefixOf ([] : List Char) then some ([], []) else none
  | c :: rest =>
    if pat.isPrefixOf (c :: rest) then some ([], (c :: rest).drop pat.length)
    else (splitFirst pat rest).map (fun pr => (c :: pr.1, pr.2))

/-- JS `includes`: does `pat` occur in `s`? -/
def strIncludes (s pat : String) : Bool :=
  (splitFirst pat.toList s.toList).isSome

/-- ECMAScript GetSubstitution for a string search value: expand `$$`, `$&`,
``$` `` and `$'` in the replacement text (`bef`/`mtch`/`aft` are the text before
the match, the matched text, and the text after the match). -/
def processRepl (bef mtch aft : List Char) : List Char → List Char
  | [] => []
  | c :: rest =>
    if c = '$' then
      match rest with
      | [] => ['$']
      | c2 :: rest2 =>
        if c2 = '$' then '$' :: processRepl bef mtch aft rest2
        else if c2 = '&' then mtch ++ processRepl bef mtch aft rest2
        else if c2 = Char.ofNat 96 then bef ++ processRepl bef mtch aft rest2
        else if c2 = Char.ofNat 39 then aft ++ processRepl bef mtch aft rest2
        else '$' :: processRepl bef mtch aft (c2 :: rest2)
    else c :: processRepl bef mtch aft rest

/-- Model of JS `s.replace(pat, repl)` with a string `pat`: replace the first
occurrence only, applying `$`-substitution to `repl`. -/
def jsReplaceFirst (s pat repl : String) : String :=
  match splitFirst pat.toList s.toList with
  | none => s
  | some (a, b) => String.mk (a ++ processRepl a pat.toList b repl.toList ++ b)

/-! ### The placeholder-token regex `\{\{DIAGRAM_\d+\}\}` -/

/-- The literal head of a placeholder token. -/
def tokenPre : List Char := "\x7b\x7bDIAGRAM_".toList

/-- Try to match the regex `\{\{DIAGRAM_\d+\}\}` at the head of `cs`; on success
return the remainder of the list after the match. -/
def matchToken (cs : List Char) : Option (List Char) :=
  if tokenPre.isPrefixOf cs then
    let r := cs.drop tokenPre.length
    let ds := r.takeWhile Char.isDigit
    if ds = [] then none
    else if ("\x7d\x7d".toList).isPrefixOf (r.drop ds.length) then
      some ((r.drop ds.length).drop 2)
    else none
  else none

/-- One fuel unit per scan step of the global cleanup: at each position either
remove a placeholder-token match and continue after it, or keep the character
and advance by one.  Each step strictly shortens the remaining list, so
`cs.length` fuel always suffices; with fuel `0` the rest is returned as-is
(never reached from `cleanupGo`). -/
def cleanupFuel : Nat → List Char → List Char
  | 0, cs => cs
  | fuel + 1, cs =>
    match matchToken cs with
    | some after => cleanupFuel fuel after
    | none =>
      match cs with
      | [] => []
      | c :: rest => c :: cleanupFuel fuel rest

/-- Model of the global cleanup `markdown.replace(/\{\{DIAGRAM_\d+\}\}/g, '')`:
scan left to right, removing each match and continuing after it. -/
def cleanupGo (cs : List Char) : List Char :=
  cleanupFuel cs.length cs

/-- Does any position of `cs` match the placeholder-token regex? -/
def containsToken : List Char → Bool
  | [] => false
  | c :: rest => (matchToken (c :: rest)).isSome || containsToken rest

/-- The cleanup pass on strings. -/
def jsCleanup (s : String) : String := String.mk (cleanupGo s.toList)

/-! ### Facts about the token scanner -/

theorem digitChar_isDigit (k : Nat) (h : k < 10) : (Nat.digitChar k).isDigit = true := by
  interval_cases k <;> decide

theorem toDigitsCore_digits (fuel : Nat) :
    ∀ (n : Nat) (ds : List Char), (∀ c ∈ ds, c.isDigit = true) →
      ∀ c ∈ Nat.toDigitsCore 10 fuel n ds, c.isDigit = true := by
  induction fuel with
  | zero => intro n ds hds; simpa [Nat.toDigitsCore] using hds
  | succ fuel ih =>
    intro n ds hds c hc
    simp only [Nat.toDigitsCore] at hc
    have hall : ∀ x ∈ Nat.digitChar (n % 10) :: ds, x.isDigit = true := by
      intro x hx
      rcases List.mem_cons.mp hx with hx | hx
      · subst hx; exact digitChar_isDigit _ (Nat.mod_lt _ (by decide))
      · exact hds x hx
    split at hc
    · exact hall c hc
    · exact ih (n / 10) (Nat.digitChar (n % 10) :: ds) hall c hc

theorem toDigitsCore_ne_nil (b fuel : Nat) :
    ∀ (n : Nat) (ds : List Char), ds ≠ [] → Nat.toDigitsCore b fuel n ds ≠ [] := by
  induction fuel with
  | zero => intro n ds hds; simpa [Nat.toDigitsCore] using hds
  | succ fuel ih =>
    intro n ds hds
    simp only [Nat.toDigitsCore]
    split
    · simp
    · exact ih (n / b) _ (by simp)

theorem natRepr_digits (p : Nat) : ∀ c ∈ (Nat.repr p).toList, c.isDigit = true := by
  intro c hc
  have : (Nat.repr p).toList = Nat.toDigitsCore 10 (p + 1) p [] := rfl
  rw [this] at hc
  exact toDigitsCore_digits (p + 1) p [] (by simp) c hc

theorem natRepr_ne_nil (p : Nat) : (Nat.repr p).toList ≠ [] := by
  have : (Nat.repr p).toList = Nat.toDigitsCore 10 (p + 1) p [] := rfl
  rw [this]
  simp only [Nat.toDigitsCore]
  split
  · simp
  · exact toDigitsCore_ne_nil 10 p (p / 10) _ (by simp)

theorem takeWhile_app_of_all (pc : Char → Bool) :
    ∀ (l r : List Char), (∀ c ∈ l, pc c = true) →
      (∀ x xs, r = x :: xs → pc x = false) →
      (l ++ r).takeWhile pc = l := by
  intro l
  induction l with
  | nil =>
    intro r _ hr
    cases r with
    | nil => rfl
    | cons x xs => simp [List.takeWhile, hr x xs rfl]
  | cons c l ih =>
    intro r hl hr
    have hc : pc c = true := hl c (by simp)
    simp only [List.cons_append, List.takeWhile, hc]
    exact congrArg (List.cons c) (ih r (fun d hd => hl d (by simp [hd])) hr)

/-- The decimal placeholder string for a natural slot index. -/
def natPlaceholder (p : Nat) : String :=
  "\x7b\x7bDIAGRAM_" ++ Nat.repr p ++ "\x7d\x7d"

theorem matchToken_natPlaceholder (p : Nat) (tail : List Char) :
    matchToken ((natPlaceholder p).toList ++ tail) = some tail := by
  have hdata : (natPlaceholder p).toList =
      tokenPre ++ ((Nat.repr p).toList ++ "\x7d\x7d".toList) := by
    simp [natPlaceholder, tokenPre, String.toList, String.data_append]
  rw [hdata, List.append_assoc, List.append_assoc]
  have hpre : tokenPre.isPrefixOf
      (tokenPre ++ ((Nat.repr p).toList ++ ("\x7d\x7d".toList ++ tail))) = true := by
    rw [List.isPrefixOf_iff_prefix]; exact List.prefix_append _ _
  have hdrop : (tokenPre ++ ((Nat.repr p).toList ++ ("\x7d\x7d".toList ++ tail))).drop
      tokenPre.length = (Nat.repr p).toList ++ ("\x7d\x7d".toList ++ tail) :=
    List.drop_left _ _
  have htake : ((Nat.repr p).toList ++ ("\x7d\x7d".toList ++ tail)).takeWhile Char.isDigit
      = (Nat.repr p).toList := by
    apply takeWhile_app_of_all
    · exact natRepr_digits p
    · intro x xs hx
      have hx' : Char.ofNat 125 :: (Char.ofNat 125 :: tail) = x :: xs := hx
      injection hx' with h1 _
      rw [← h1]; decide
  have hdrop2 : ((Nat.repr p).toList ++ ("\x7d\x7d".toList ++ tail)).drop
      ((Nat.repr p).toList).length = "\x7d\x7d".toList ++ tail := List.drop_left _ _
  simp only [matchToken, hpre, if_true, hdrop, htake, hdrop2]
  rw [if_neg (natRepr_ne_nil p)]
  have hpre2 : ("\x7d\x7d".toList).isPrefixOf ("\x7d\x7d".toList ++ tail) = true := by
    rw [List.isPrefixOf_iff_prefix]; exact List.prefix_append _ _
  rw [if_pos hpre2]
  have hdr : ("\x7d\x7d".toList ++ tail).drop 2 = tail :=
    List.drop_left' (show ("\x7d\x7d".toList).length = 2 from rfl)
  rw [hdr]

theorem matchToken_nil : matchToken [] = none := rfl

theorem containsToken_append (a rest : List Char) (h : (matchToken rest).isSome = true) :
    containsToken (a ++ rest) = true := by
  induction a with
  | nil =>
    cases rest with
    | nil => rw [matchToken_nil] at h; simp at h
    | cons c r => simpa [containsToken] using Or.inl h
  | cons c a ih =>
    simp [containsToken, ih]

theorem cleanupFuel_of_no_token (fuel : Nat) :
    ∀ (cs : List Char), containsToken cs = false → cleanupFuel fuel cs = cs := by
  induction fuel with
  | zero => intro cs _; rfl
  | succ fuel ih =>
    intro cs h
    cases cs with
    | nil => rfl
    | cons c rest =>
      simp only [containsToken, Bool.or_eq_false_iff] at h
      obtain ⟨h1, h2⟩ := h
      have hnone : matchToken (c :: rest) = none := by
        cases hmt : matchToken (c :: rest) with
        | none => rfl
        | some after => rw [hmt] at h1; simp at h1
      simp only [cleanupFuel, hnone]
      rw [ih rest h2]

theorem cleanupGo_of_no_token (cs : List Char) (h : containsToken cs = false) :
    cleanupGo cs = cs :=
  cleanupFuel_of_no_token cs.length cs h

theorem splitFirst_append (pat : List Char) :
    ∀ (s a b : List Char), splitFirst pat s = some (a, b) → s = a ++ pat ++ b := by
  intro s
  induction s with
  | nil =>
    intro a b h
    simp only [splitFirst] at h
    split at h
    · next hp =>
      rw [List.isPrefixOf_iff_prefix] at hp
      have : pat = [] := List.prefix_nil.mp hp
      subst this
      injection h with h
      injection h with h1 h2
      subst h1; subst h2; rfl
    · exact absurd h (by simp)
  | cons c rest ih =>
    intro a b h
    simp only [splitFirst] at h
    split at h
    · next hp =>
      rw [List.isPrefixOf_iff_prefix] at hp
      obtain ⟨t, ht⟩ := hp
      injection h with h
      injection h with h1 h2
      subst h1
      rw [← ht, List.drop_left] at h2
      subst h2
      simp [← ht]
    · next hp =>
      cases hsf : splitFirst pat rest with
      | none => rw [hsf] at h; exact absurd h (by simp)
      | some pr =>
        obtain ⟨a', b'⟩ := pr
        rw [hsf] at h
        simp only [Option.map] at h
        injection h with h
        injection h with h1 h2
        subst h1; subst h2
        have hres := ih a' b' hsf
        simp [hres]

theorem splitFirst_isSome_of_parts (pat : List Char) :
    ∀ (u v : List Char), (splitFirst pat (u ++ pat ++ v)).isSome = true := by
  intro u
  induction u with
  | nil =>
    intro v
    show (splitFirst pat (pat ++ v)).isSome = true
    cases hpv : pat ++ v with
    | nil =>
      have hp : pat = [] := by
        cases pat with
        | nil => rfl
        | cons x xs => simp at hpv
      have hv : v = [] := by subst hp; simpa using hpv
      subst hp; subst hv
      simp [splitFirst]
    | cons c r =>
      simp only [splitFirst]
      rw [if_pos]
      · simp
      · rw [List.isPrefixOf_iff_prefix, ← hpv]
        exact List.prefix_append _ _
  | cons c u ih =>
    intro v
    simp only [List.cons_append, splitFirst]
    split
    · simp
    · have hih := ih v
      have hmap : ∀ (o : Option (List Char × List Char))
          (f : List Char × List Char → List Char × List Char),
          (o.map f).isSome = o.isSome := by
        intro o f; cases o <;> rfl
      rw [hmap]
      exact hih

theorem processRepl_of_no_dollar (bef mtch aft : List Char) :
    ∀ (rep : List Char), (∀ c ∈ rep, ¬ c = '$') → processRepl bef mtch aft rep = rep := by
  intro rep
  induction rep with
  | nil => intro _; rfl
  | cons c rest ih =>
    intro h
    have hc : ¬ c = '$' := h c (by simp)
    rw [processRepl.eq_def]
    dsimp only
    rw [if_neg hc, ih (fun d hd => h d (by simp [hd]))]

theorem jsReplaceFirst_of_not_found (s pat repl : String)
    (h : splitFirst pat.toList s.toList = none) : jsReplaceFirst s pat repl = s := by
  unfold jsReplaceFirst
  rw [h]

theorem string_mk_toList (s : String) : String.mk s.toList = s := rfl

theorem string_toList_append (a b : String) : (a ++ b).toList = a.toList ++ b.toList :=
  String.data_append a b

/-! ### Response envelopes and `extractText` (both handler variants agree) -/

/-- The `text` field of an output-node content chunk: in the wild it is either a
string or an object that may carry a `value` string (`chunk.text?.value ?? chunk.text`). -/
inductive ChunkText where
  | str (s : String)
  | obj (value : Option String)
deriving DecidableEq

/-- One content chunk of an output node. -/
structure Chunk where
  text : Option ChunkText
deriving DecidableEq

/-- One node of the structured `output` array; `content` may be absent. -/
structure OutNode where
  content : Option (List Chunk)
deriving DecidableEq

/-- The `message` object of a `choices` entry; `content` may be absent/null. -/
structure ChoiceMsg where
  content : Option String
deriving DecidableEq

/-- One entry of the simpler `choices` array; `message` may be absent. -/
structure RespChoice where
  message : Option ChoiceMsg
deriving DecidableEq

/-- A generative-source response envelope: either shape may be present. -/
structure Response where
  output : Option (List OutNode)
  choices : Option (List RespChoice)
deriving DecidableEq

/-- Evaluation of `chunk.text?.value ?? chunk.text ?? ''`.  When `text` is an object without a
`value`, JS falls back to the object itself, which stringifies at `join` time. -/
def chunkTextVal : Option ChunkText → String
  | none => ""
  | some (ChunkText.str s) => s
  | some (ChunkText.obj (some v)) => v
  | some (ChunkText.obj none) => "[object Object]"

/-- Embedding of `extractText` (identical in both handler variants): try the
`output` nodes first, then `choices`, else the empty string.  A `none` response
models a falsy JS value (`if (!response) return ''`). -/
def extractText (response : Option Response) : String :=
  match response with
  | none => ""
  | some r =>
    match r.output with
    | some output =>
      jsTrim (jsJoin "\n"
        (((output.flatMap (fun node => node.content.getD [])).map
            (fun chunk => chunkTextVal chunk.text)).filter (fun s => ¬ s = "")))
    | none =>
      match r.choices with
      | some choices =>
        jsTrim (jsJoin "\n"
          (choices.map (fun choice => (choice.message.bind ChoiceMsg.content).getD "")))
      | none => ""

/-! ### `extractText` on the raw JS value domain

The typed `Response` covers only well-formed envelopes.  The JS source,
however, accepts arbitrary values: a truthy non-array `output` or `choices`
makes the unguarded `.flatMap`/`.map` call throw a `TypeError`, and a `null`
or `undefined` element of either array makes the unguarded property reads
`node.content` / `chunk.text` / `choice.message` throw.  The raw embedding
below represents those values and models a thrown `TypeError` as
`Except.error`. -/

/-- The value of `response.output` or `response.choices` as the source
inspects it: falsy (the `if` guard fails), truthy but not an array (the
method call throws), or an array whose elements may be `null`/`undefined`
(`none`). -/
inductive RawField (α : Type) where
  | falsy
  | nonArray
  | arr (xs : List (Option α))
deriving DecidableEq

/-- An output node over the raw domain: `content` may be absent/null
(`?? []` applies) or an array whose chunk elements may themselves be null.
A truthy non-array `content` never throws (`flatMap` keeps it as one opaque
element whose `text` reads back `undefined`, contributing an empty string
that the filter drops), so it is not distinguished here. -/
structure RawNode where
  content : Option (List (Option Chunk))
deriving DecidableEq

/-- A raw response envelope. -/
structure RawResponse where
  output : RawField RawNode
  choices : RawField RespChoice
deriving DecidableEq

/-- The `flatMap((node) => node.content ?? [])` pass: throws on the first
null/undefined node element, else concatenates the content arrays. -/
def flatMapContents : List (Option RawNode) → Except String (List (Option Chunk))
  | [] => Except.ok []
  | none :: _ => Except.error "TypeError: cannot read content of null"
  | some node :: rest =>
    (flatMapContents rest).map (fun cs => node.content.getD [] ++ cs)

/-- The `map((chunk) => chunk.text?.value ?? chunk.text ?? '')` pass: throws
on the first null/undefined chunk element. -/
def mapChunks : List (Option Chunk) → Except String (List String)
  | [] => Except.ok []
  | none :: _ => Except.error "TypeError: cannot read text of null"
  | some chunk :: rest =>
    (mapChunks rest).map (fun ss => chunkTextVal chunk.text :: ss)

/-- The `map((choice) => choice.message?.content ?? '')` pass: throws on the
first null/undefined choice element. -/
def mapChoices : List (Option RespChoice) → Except String (List String)
  | [] => Except.ok []
  | none :: _ => Except.error "TypeError: cannot read message of null"
  | some choice :: rest =>
    (mapChoices rest).map
      (fun ss => ((choice.message.bind ChoiceMsg.content).getD "") :: ss)

/-- Embedding of `extractText` over the raw JS value domain: identical control
flow to `extractText`, with the `TypeError` paths explicit. -/
def extractTextRaw (response : Option RawResponse) : Except String String :=
  match response with
  | none => Except.ok ""
  | some r =>
    match r.output with
    | RawField.nonArray => Except.error "TypeError: flatMap is not a function"
    | RawField.arr nodes =>
      (flatMapContents nodes).bind (fun contents =>
        (mapChunks contents).map (fun texts =>
          jsTrim (jsJoin "\n" (texts.filter (fun s => ¬ s = "")))))
    | RawField.falsy =>
      match r.choices with
      | RawField.nonArray => Except.error "TypeError: map is not a function"
      | RawField.arr choices =>
        (mapChoices choices).map (fun texts => jsTrim (jsJoin "\n" texts))
      | RawField.falsy => Except.ok ""

/-- The raw image of a well-formed output node. -/
def rawOfNode (n : OutNode) : RawNode :=
  ⟨n.content.map (fun cs => cs.map some)⟩

/-- The raw image of a well-formed envelope. -/
def rawOfResponse (r : Response) : RawResponse :=
  ⟨match r.output with
    | none => RawField.falsy
    | some ns => RawField.arr (ns.map (fun n => some (rawOfNode n))),
   match r.choices with
    | none => RawField.falsy
    | some cs => RawField.arr (cs.map some)⟩

/-! ### Diagram grammar validators (`validate-diagrams.js`) -/

/-- A validation outcome `{ valid, error }`. -/
structure ValidationOutcome where
  valid : Bool
  error : Option String
deriving DecidableEq

/-- Result of a `fetch` call: either the promise rejects with an error message,
or an HTTP response arrives with `ok`, `status`, `statusText` and body text. -/
inductive FetchResult where
  | reject (msg : String)
  | resp (ok : Bool) (status : Nat) (statusText : String) (body : String)
deriving DecidableEq

/-- Case-insensitive literal match of `pat` (given lowercase) at the head of
`cs`; returns the consumed original characters and the rest. -/
def matchCI (pat : List Char) (cs : List Char) : Option (List Char × List Char) :=
  match pat, cs with
  | [], rest => some ([], rest)
  | _ :: _, [] => none
  | p :: ps, c :: cs' =>
    if c.toLower = p then (matchCI ps cs').map (fun pr => (c :: pr.1, pr.2))
    else none

/-- Alternatives 2 and 3 of `/cannot [^\n]+|syntax error[^\n]*|Error[^\n]*/i`
tried at one position. -/
def matchErrAt2 (cs : List Char) : Option (List Char) :=
  match matchCI ("syntax error".toList) cs with
  | some (x, r) => some (x ++ r.takeWhile (fun c => ¬ c = '\n'))
  | none =>
    match matchCI ("error".toList) cs with
    | some (x, r) => some (x ++ r.takeWhile (fun c => ¬ c = '\n'))
    | none => none

/-- All alternatives of the error-extraction regex tried at one position. -/
def matchErrAt (cs : List Char) : Option (List Char) :=
  match matchCI ("cannot ".toList) cs with
  | some (x, r) =>
    let t := r.takeWhile (fun c => ¬ c = '\n')
    if t = [] then matchErrAt2 cs else some (x ++ t)
  | none => matchErrAt2 cs

/-- Leftmost match of the error-extraction regex over the whole text. -/
def regexErrorFirst : List Char → Option (List Char)
  | [] => none
  | c :: rest =>
    match matchErrAt (c :: rest) with
    | some m => some m
    | none => regexErrorFirst rest

/-- The error-indicator scan `validatePlantUML` performs on the rendered text:
`includes` is case-sensitive; the extraction regex is case-insensitive. -/
def plantumlScanError (text : String) : Option String :=
  if strIncludes text "cannot include" || strIncludes text "syntax error" ||
      strIncludes text "Error" || strIncludes text "^^^^^" then
    some (match regexErrorFirst text.toList with
          | some frag => jsTrim (String.mk frag)
          | none => "PlantUML syntax error detected")
  else none

/-- Embedding of `validateMermaid`.  `parse` is the oracle for `mermaid.parse`
(an `Except.error` carries the thrown error's message text; the catch-all in the
source turns it into the outcome's error).  The second component records the
URLs fetched over the network: the source performs no `fetch`, so it is always
empty. -/
def validateMermaid (parse : String → Except String Unit) (definition : String) :
    ValidationOutcome × List String :=
  let trimmed := jsTrim definition
  if trimmed = "" then (⟨false, some "Empty Mermaid definition"⟩, [])
  else
    match parse trimmed with
    | Except.ok _ => (⟨true, none⟩, [])
    | Except.error e => (⟨false, some e⟩, [])

/-- The PlantUML text-rendering endpoint base URL. -/
def plantumlBase : String := "https://www.plantuml.com/plantuml/txt/"

/-- Embedding of `validatePlantUML`.  `encode` is the `plantuml-encoder` oracle
and `fetch` the network oracle.  The second component records the URLs fetched. -/
def validatePlantUML (encode : String → String) (fetch : String → FetchResult)
    (definition : String) : ValidationOutcome × List String :=
  let trimmed := jsTrim definition
  if trimmed = "" then (⟨false, some "Empty PlantUML definition"⟩, [])
  else
    let url := plantumlBase ++ encode trimmed
    match fetch url with
    | FetchResult.reject msg => (⟨false, some msg⟩, [url])
    | FetchResult.resp ok status statusText body =>
      if ok = false then
        (⟨false, some ("HTTP " ++ toString status ++ ": " ++ statusText)⟩, [url])
      else
        match plantumlScanError body with
        | some e => (⟨false, some e⟩, [url])
        | none => (⟨true, none⟩, [url])

/-! ### The diagram repair loop (`validateAndFixDiagrams`, both variants) -/

/-- A parsed diagram entry `{ type, code, position }`; `type` and `position`
may be absent. -/
structure Diagram where
  type : Option String
  code : String
  position : Option Int
deriving DecidableEq

/-- A repaired diagram result
`{ type, code, originalPosition, valid, error }`. -/
structure RepairedDiagram where
  type : Option String
  code : String
  originalPosition : Int
  valid : Bool
  error : Option String
deriving DecidableEq

/-- Which of the two validators a diagram kind is dispatched to. -/
inductive ValKind where
  | m
  | p
deriving DecidableEq

/-- The validator chosen by the loop's `if`/`else if` chain on `diagram.type`:
`mermaid` goes to the flow-grammar validator, the three alias spellings
`plantuml`/`puml`/`uml` go to the process-grammar validator, anything else to
neither. -/
def diagKind (t : Option String) : Option ValKind :=
  if t = some "mermaid" then some ValKind.m
  else if t = some "plantuml" ∨ t = some "puml" ∨ t = some "uml" then some ValKind.p
  else none

/-- The oracle environment of one request: per-call results of the two
validators and of the repair calls, indexed by diagram index and attempt
number.  A repair call that rejects (network/API error) is `Except.error`. -/
structure RepairEnv where
  vm : Nat → Nat → String → ValidationOutcome
  vp : Nat → Nat → String → ValidationOutcome
  fix : Nat → Nat → Except String Response

/-- The validator outcome the loop observes for kind `k` at diagram `i`,
attempt `a`, on input `c`. -/
def envVal (env : RepairEnv) (k : ValKind) (i a : Nat) (c : String) : ValidationOutcome :=
  match k with
  | ValKind.m => env.vm i a c
  | ValKind.p => env.vp i a c

/-- One validation dispatch of the loop body. -/
def dispatch (env : RepairEnv) (i a : Nat) (c : String) (t : Option String) :
    Option (ValKind × ValidationOutcome) :=
  (diagKind t).map (fun k => (k, envVal env k i a c))

/-- Model of `fixedCode.replace(/^```\w*\n/, '')`: strip one leading code fence. -/
def stripLeadFence (s : String) : String :=
  if ("```".toList).isPrefixOf s.toList then
    let r := s.toList.drop 3
    let w := r.takeWhile (fun c => c.isAlphanum || c = '_')
    match r.drop w.length with
    | '\n' :: r2 => String.mk r2
    | _ => s
  else s

/-- Model of `.replace(/\n```$/, '')`: strip one trailing code fence. -/
def stripTrailFence (s : String) : String :=
  if ("\n```".toList).isSuffixOf s.toList then
    String.mk (s.toList.take (s.toList.length - 4))
  else s

/-- Post-processing of a repair response:
`extractText(fixResponse).trim()` followed by the two fence strips and a final
`trim`. -/
def cleanFix (r : Response) : String :=
  jsTrim (stripTrailFence (stripLeadFence (jsTrim (extractText (some r)))))

/-- Outcome of the `while` loop for one diagram, together with the validator
calls made (kind and input) and the number of repair calls issued. -/
structure LoopOut where
  code : String
  isValid : Bool
  lastError : Option String
  valCalls : List (ValKind × String)
  fixCount : Nat
deriving DecidableEq

/-- The `while (attempts <= maxRetries && !isValid)` loop of
`validateAndFixDiagrams`, one step per fuel unit.  `isValid` is only ever set
immediately before `break`, so the loop state is `(code, attempts, lastError)`.
A repair call that rejects hits the `catch` and breaks; otherwise the response
text is cleaned and the attempt counter incremented.  The fuel
`maxRetries + 1` used by `processDiagram` is never exhausted since `attempts`
grows on every recursive call. -/
def loopGo (env : RepairEnv) (maxRetries i : Nat) (t : Option String) :
    Nat → String → Nat → Option String → LoopOut
  | 0, code, _, lastErr => ⟨code, false, lastErr, [], 0⟩
  | fuel + 1, code, attempts, lastErr =>
    if attempts ≤ maxRetries then
      match dispatch env i attempts code t with
      | none => ⟨code, true, lastErr, [], 0⟩
      | some (k, v) =>
        if v.valid then ⟨code, true, lastErr, [(k, code)], 0⟩
        else if attempts < maxRetries then
          match env.fix i attempts with
          | Except.error _ => ⟨code, false, v.error, [(k, code)], 1⟩
          | Except.ok r =>
            let out := loopGo env maxRetries i t fuel (cleanFix r) (attempts + 1) v.error
            ⟨out.code, out.isValid, out.lastError, (k, code) :: out.valCalls, out.fixCount + 1⟩
        else ⟨code, false, v.error, [(k, code)], 0⟩
    else ⟨code, false, lastErr, [], 0⟩

/-- Processing of one diagram entry: run the loop, then build the result
`{ type, code, originalPosition: diagram.position ?? i, valid,
error: isValid ? null : lastError }`.  Also returns the validator-call trace
and the repair-call count. -/
def processDiagram (env : RepairEnv) (maxRetries i : Nat) (d : Diagram) :
    RepairedDiagram × List (ValKind × String) × Nat :=
  let out := loopGo env maxRetries i d.type (maxRetries + 1) d.code 0 none
  (⟨d.type, out.code, d.position.getD (Int.ofNat i), out.isValid,
    if out.isValid then none else out.lastError⟩,
   out.valCalls, out.fixCount)

/-- Embedding of `validateAndFixDiagrams`: the `for` loop processes each entry
in order and pushes one result per entry. -/
def validateAndFixDiagrams (env : RepairEnv) (maxRetries : Nat) (diagrams : List Diagram) :
    List RepairedDiagram :=
  diagrams.enum.map (fun pair => (processDiagram env maxRetries pair.1 pair.2).1)

/-! ### Document assembly (the handler's reassembly step) -/

/-- The placeholder string `` `{{DIAGRAM_${diagram.originalPosition}}}` ``. -/
def placeholderOf (d : RepairedDiagram) : String :=
  "\x7b\x7bDIAGRAM_" ++ toString d.originalPosition ++ "\x7d\x7d"

/-- The fenced block substituted for a placeholder. -/
def renderBlock (d : RepairedDiagram) : String :=
  if d.type = some "mermaid" then "```mermaid\n" ++ d.code ++ "\n```"
  else "```plantuml\n" ++ d.code ++ "\n```"

/-- The `forEach` substitution pass: one first-occurrence `replace` per
repaired diagram. -/
def substituteAll (t : String) (ds : List RepairedDiagram) : String :=
  ds.foldl (fun acc d => jsReplaceFirst acc (placeholderOf d) (renderBlock d)) t

/-- Substitution followed by the global placeholder cleanup. -/
def assembleMarkdown (t : String) (ds : List RepairedDiagram) : String :=
  jsCleanup (substituteAll t ds)

/-! ### The post-parse portion of the analyze handlers -/

/-- The parsed response object as far as the handlers inspect it: `markdown`
absent or non-string is `none`; `diagrams` absent or non-array is `none`. -/
structure Parsed where
  markdown : Option String
  diagrams : Option (List Diagram)

/-- Outcome of a request: an error status with message, or the final markdown. -/
inductive AnalyzeResult where
  | errorResp (status : Nat) (msg : String)
  | okResp (markdown : String)
deriving DecidableEq

/-- Post-parse handling in the compact variant (`src/backend/src/index.js`):
`if (!parsed.markdown || !Array.isArray(parsed.diagrams))` fails the request
with 502, else validate, substitute and clean up. -/
def handleParsedA (env : RepairEnv) (parsed : Parsed) : AnalyzeResult :=
  match parsed.markdown, parsed.diagrams with
  | some m, some ds =>
    if m = "" then AnalyzeResult.errorResp 502 "Invalid response structure from GPT-5.1"
    else AnalyzeResult.okResp (assembleMarkdown m (validateAndFixDiagrams env 2 ds))
  | _, _ => AnalyzeResult.errorResp 502 "Invalid response structure from GPT-5.1"

/-- Post-parse handling in the logging variant (`src/unnamed/part_000`):
missing `markdown` is a 502, but a missing or non-array `diagrams` field is
replaced by `[]` and the request proceeds. -/
def handleParsedB (env : RepairEnv) (parsed : Parsed) : AnalyzeResult :=
  match parsed.markdown with
  | none => AnalyzeResult.errorResp 502 "Missing markdown in response from GPT-5.1"
  | some m =>
    if m = "" then AnalyzeResult.errorResp 502 "Missing markdown in response from GPT-5.1"
    else
      AnalyzeResult.okResp
        (assembleMarkdown m (validateAndFixDiagrams env 2 (parsed.diagrams.getD [])))

/-! ### `buildPrompt` (both variants) -/

/-- Embedding of `buildPrompt` from `src/backend/src/index.js`:
`[...].join('\n')` with `code.slice(0, 12000)`. -/
def buildPrompt (filename code : String) : String :=
  jsJoin "\n"
    ["File name: " ++ filename,
     "",
     "Analyze this code and produce high-level documentation focusing on business logic, architecture, and purpose.",
     "Include diagrams where they add value. Use the JSON structure specified in the system prompt.",
     "",
     "Code:",
     "```",
     jsSlice code 12000,
     "```"]

/-- Embedding of `buildPrompt` from the logging variant (`src/unnamed/part_000`). -/
def buildPromptB (filename code : String) : String :=
  jsJoin "\n"
    ["File name: " ++ filename,
     "",
     "Analyze this code file and produce function-by-function documentation.",
     "For each function, provide metadata (parameters, return type, side effects) and a narrative explanation of its logic flow.",
     "Write the narrative as if telling a story - abstract the implementation into logical concepts.",
     "Include diagrams (flowcharts, sequence diagrams) when they help visualize complex logic flows.",
     "Use the JSON structure specified in the system prompt.",
     "",
     "Code:",
     "```",
     jsSlice code 12000,
     "```"]

/-- Everything before the truncated code in variant A's prompt. -/
def promptHeadA (filename : String) : String :=
  "File name: " ++ filename ++
    "\n\nAnalyze this code and produce high-level documentation focusing on business logic, architecture, and purpose.\nInclude diagrams where they add value. Use the JSON structure specified in the system prompt.\n\nCode:\n```\n"

/-- Everything before the truncated code in variant B's prompt. -/
def promptHeadB (filename : String) : String :=
  "File name: " ++ filename ++
    "\n\nAnalyze this code file and produce function-by-function documentation.\nFor each function, provide metadata (parameters, return type, side effects) and a narrative explanation of its logic flow.\nWrite the narrative as if telling a story - abstract the implementation into logical concepts.\nInclude diagrams (flowcharts, sequence diagrams) when they help visualize complex logic flows.\nUse the JSON structure specified in the system prompt.\n\nCode:\n```\n"

/-- Everything after the truncated code in either prompt. -/
def promptTail : String := "\n```"

/-! ### Concrete environments used as witnesses -/

/-- An environment whose validators always fail and whose repair calls always
succeed with a fixed choices-shaped response reading `fixed code`. -/
def envFix : RepairEnv :=
  ⟨fun _ _ _ => ⟨false, some "bad m"⟩, fun _ _ _ => ⟨false, some "bad p"⟩,
   fun _ _ => Except.ok ⟨none, some [⟨some ⟨some "fixed code"⟩⟩]⟩⟩

/-- An environment whose validators always fail and whose repair calls always
reject. -/
def envThrow : RepairEnv :=
  ⟨fun _ _ _ => ⟨false, some "bad m"⟩, fun _ _ _ => ⟨false, some "bad p"⟩,
   fun _ _ => Except.error "network down"⟩

/-! ### Claim theorems -/

theorem rawOfNode_content (n : OutNode) :
    (rawOfNode n).content.getD [] = (n.content.getD []).map some := by
  cases hn : n.content <;> simp [rawOfNode, hn]

theorem flatMapContents_map_some (ns : List OutNode) :
    flatMapContents (ns.map (fun n => some (rawOfNode n))) =
      Except.ok ((ns.flatMap (fun n => n.content.getD [])).map some) := by
  induction ns with
  | nil => rfl
  | cons n ns ih =>
    simp only [List.map_cons, flatMapContents, ih, Except.map]
    simp [rawOfNode_content, List.flatMap_cons, List.map_append]

theorem mapChunks_map_some (xs : List Chunk) :
    mapChunks (xs.map some) =
      Except.ok (xs.map (fun chunk => chunkTextVal chunk.text)) := by
  induction xs with
  | nil => rfl
  | cons x xs ih => simp [mapChunks, ih, Except.map]

theorem mapChoices_map_some (cs : List RespChoice) :
    mapChoices (cs.map some) =
      Except.ok (cs.map (fun choice => (choice.message.bind ChoiceMsg.content).getD "")) := by
  induction cs with
  | nil => rfl
  | cons c cs ih => simp [mapChoices, ih, Except.map]

/-- C4 (amended): on the well-formed envelope domain — `output`/`choices`,
when truthy, are arrays of non-null elements, with the output nodes' content
chunks also non-null — `extractText` never throws (its raw-domain embedding
returns `Except.ok`) and selects among the two envelope shapes in order: when
`output` is present its chunk texts are joined and trimmed and `choices` is
ignored entirely; when only `choices` is present the message contents are
joined and trimmed; when neither is present, or the envelope itself is
missing, the result is the empty string.  Outside that domain the source
throws a `TypeError` (see the counterexample). -/
theorem extractTextTotalOnWellFormed (r : Option Response) (out : List OutNode)
    (chs : List RespChoice) (co : Option (List RespChoice)) :
    extractTextRaw (r.map rawOfResponse) = Except.ok (extractText r)
    ∧ extractText (some ⟨some out, co⟩) =
      jsTrim (jsJoin "\n"
        (((out.flatMap (fun node => node.content.getD [])).map
            (fun chunk => chunkTextVal chunk.text)).filter (fun s => ¬ s = "")))
    ∧ extractText (some ⟨some out, co⟩) = extractText (some ⟨some out, none⟩)
    ∧ extractText (some ⟨some [], co⟩) = ""
    ∧ extractText (some ⟨none, some chs⟩) =
      jsTrim (jsJoin "\n"
        (chs.map (fun choice => (choice.message.bind ChoiceMsg.content).getD "")))
    ∧ extractText (some ⟨none, none⟩) = ""
    ∧ extractText none = "" := by
  refine ⟨?_, rfl, rfl, rfl, rfl, rfl, rfl⟩
  cases r with
  | none => rfl
  | some resp =>
    obtain ⟨ro, rc⟩ := resp
    cases ro with
    | some ns =>
      show extractTextRaw (some (rawOfResponse ⟨some ns, rc⟩)) = _
      simp only [rawOfResponse, extractTextRaw, flatMapContents_map_some,
        mapChunks_map_some, Except.bind, Except.map, extractText]
    | none =>
      cases rc with
      | some cs =>
        show extractTextRaw (some (rawOfResponse ⟨none, some cs⟩)) = _
        simp only [rawOfResponse, extractTextRaw, mapChoices_map_some,
          Except.map, extractText]
      | none => rfl

/-- C4 counterexample: concrete envelope values on which the source throws a
`TypeError` instead of returning a string — a truthy non-array `output`, a
null element in the `output` array, a null content chunk, a null element in
the `choices` array, and a truthy non-array `choices`. -/
theorem extractTextThrows :
    extractTextRaw (some ⟨RawField.nonArray, RawField.falsy⟩) =
      Except.error "TypeError: flatMap is not a function"
    ∧ extractTextRaw (some ⟨RawField.arr [none], RawField.falsy⟩) =
      Except.error "TypeError: cannot read content of null"
    ∧ extractTextRaw (some ⟨RawField.arr [some ⟨some [none]⟩], RawField.falsy⟩) =
      Except.error "TypeError: cannot read text of null"
    ∧ extractTextRaw (some ⟨RawField.falsy, RawField.arr [none]⟩) =
      Except.error "TypeError: cannot read message of null"
    ∧ extractTextRaw (some ⟨RawField.falsy, RawField.nonArray⟩) =
      Except.error "TypeError: map is not a function" :=
  ⟨rfl, rfl, rfl, rfl, rfl⟩

set_option maxRecDepth 8192

/-- C9: in both handler variants the instruction payload decomposes as a
header (depending only on the file name), then exactly the first 12,000
characters of the uploaded content, then a fixed tail; content shorter than
12,000 characters is included in full. -/
theorem buildPromptTruncation (f c : String) :
    buildPrompt f c = promptHeadA f ++ jsSlice c 12000 ++ promptTail
    ∧ buildPromptB f c = promptHeadB f ++ jsSlice c 12000 ++ promptTail
    ∧ (c.toList.length ≤ 12000 → jsSlice c 12000 = c) := by
  refine ⟨?_, ?_, ?_⟩
  · have hmid : ("\n\nAnalyze this code and produce high-level documentation focusing on business logic, architecture, and purpose.\nInclude diagrams where they add value. Use the JSON structure specified in the system prompt.\n\nCode:\n```\n" : String)
        = "\n" ++ "" ++ "\n" ++ "Analyze this code and produce high-level documentation focusing on business logic, architecture, and purpose." ++ "\n" ++ "Include diagrams where they add value. Use the JSON structure specified in the system prompt." ++ "\n" ++ "" ++ "\n" ++ "Code:" ++ "\n" ++ "```" ++ "\n" := rfl
    have htail : promptTail = "\n" ++ "```" := rfl
    simp only [buildPrompt, jsJoin, promptHeadA, htail, hmid, String.append_assoc]
  · have hmid : ("\n\nAnalyze this code file and produce function-by-function documentation.\nFor each function, provide metadata (parameters, return type, side effects) and a narrative explanation of its logic flow.\nWrite the narrative as if telling a story - abstract the implementation into logical concepts.\nInclude diagrams (flowcharts, sequence diagrams) when they help visualize complex logic flows.\nUse the JSON structure specified in the system prompt.\n\nCode:\n```\n" : String)
        = "\n" ++ "" ++ "\n" ++ "Analyze this code file and produce function-by-function documentation." ++ "\n" ++ "For each function, provide metadata (parameters, return type, side effects) and a narrative explanation of its logic flow." ++ "\n" ++ "Write the narrative as if telling a story - abstract the implementation into logical concepts." ++ "\n" ++ "Include diagrams (flowcharts, sequence diagrams) when they help visualize complex logic flows." ++ "\n" ++ "Use the JSON structure specified in the system prompt." ++ "\n" ++ "" ++ "\n" ++ "Code:" ++ "\n" ++ "```" ++ "\n" := rfl
    have htail : promptTail = "\n" ++ "```" := rfl
    simp only [buildPromptB, jsJoin, promptHeadB, htail, hmid, String.append_assoc]
  · intro hlen
    unfold jsSlice
    rw [List.take_of_length_le hlen]
    exact string_mk_toList c

/-- Witness for C9 at a concrete file name and a content below the budget. -/
theorem buildPromptTruncationWitness :
    buildPrompt "m.js" "let x" = promptHeadA "m.js" ++ "let x" ++ promptTail := by
  have h := buildPromptTruncation "m.js" "let x"
  rw [h.1, h.2.2 (by decide)]

set_option maxRecDepth 512

/-- C5: on input that is empty after trimming, the Mermaid validator returns
invalid with the fixed message `Empty Mermaid definition` and the PlantUML
validator returns invalid with the fixed message `Empty PlantUML definition`
before issuing its HTTP request (its fetch trace is empty); moreover the
Mermaid validator's fetch trace is empty on every input. -/
theorem validatorsEmptyInput :
    (∀ (parse : String → Except String Unit) (d : String), jsTrim d = "" →
      validateMermaid parse d = (⟨false, some "Empty Mermaid definition"⟩, []))
    ∧ (∀ (encode : String → String) (fetch : String → FetchResult) (d : String),
        jsTrim d = "" →
        validatePlantUML encode fetch d = (⟨false, some "Empty PlantUML definition"⟩, []))
    ∧ (∀ (parse : String → Except String Unit) (d : String),
        (validateMermaid parse d).2 = []) := by
  refine ⟨?_, ?_, ?_⟩
  · intro parse d h
    simp only [validateMermaid]
    rw [h]
    rfl
  · intro encode fetch d h
    simp only [validatePlantUML]
    rw [h]
    rfl
  · intro parse d
    simp only [validateMermaid]
    split
    · rfl
    · split <;> rfl

/-- Witness for C5 at a whitespace-only input. -/
theorem validatorsEmptyInputWitness :
    validateMermaid (fun _ => Except.ok ()) "  " =
      (⟨false, some "Empty Mermaid definition"⟩, [])
    ∧ validatePlantUML (fun s => s) (fun _ => FetchResult.reject "unreachable") "  " =
      (⟨false, some "Empty PlantUML definition"⟩, []) :=
  ⟨validatorsEmptyInput.1 (fun _ => Except.ok ()) "  " (by decide),
   validatorsEmptyInput.2.1 (fun s => s) (fun _ => FetchResult.reject "unreachable") "  "
     (by decide)⟩

/-- C3: a diagram entry whose declared type is none of the recognized kinds
short-circuits: the result keeps the original code, is marked valid with a null
error, its slot index still follows `position ?? i`, and neither validator nor
the repair call is ever invoked. -/
theorem repairLoopUnknownKind (env : RepairEnv) (maxRetries i : Nat) (d : Diagram)
    (hk : diagKind d.type = none) :
    processDiagram env maxRetries i d =
      (⟨d.type, d.code, d.position.getD (Int.ofNat i), true, none⟩, [], 0) := by
  unfold processDiagram
  have hloop : loopGo env maxRetries i d.type (maxRetries + 1) d.code 0 none =
      ⟨d.code, true, none, [], 0⟩ := by
    rw [loopGo]
    rw [if_pos (Nat.zero_le maxRetries)]
    unfold dispatch
    rw [hk]
    rfl
  rw [hloop]
  rfl

/-- Witness for C3 at a concrete unrecognized type. -/
theorem repairLoopUnknownKindWitness :
    processDiagram envThrow 2 0 ⟨some "graphviz", "digraph G", none⟩ =
      (⟨some "graphviz", "digraph G", 0, true, none⟩, [], 0) :=
  repairLoopUnknownKind envThrow 2 0 ⟨some "graphviz", "digraph G", none⟩ (by decide)

/-- C1 (amended): in the logging handler variant, a parsed object with a
non-empty `markdown` and an absent or non-array `diagrams` field succeeds: the
diagram list is treated as empty and the returned document is the markdown with
every placeholder token stripped by the cleanup pass. -/
theorem analyzeLenientMissingDiagrams (env : RepairEnv) (m : String) (hm : ¬ m = "") :
    handleParsedB env ⟨some m, none⟩ = AnalyzeResult.okResp (jsCleanup m) := by
  unfold handleParsedB
  dsimp only
  rw [if_neg hm]
  rfl

/-- Witness for C1: a concrete markdown with a leftover placeholder token. -/
theorem analyzeLenientMissingDiagramsWitness :
    handleParsedB envThrow ⟨some "hello \x7b\x7bDIAGRAM_0\x7d\x7d!", none⟩ =
      AnalyzeResult.okResp "hello !" := by
  rw [analyzeLenientMissingDiagrams envThrow "hello \x7b\x7bDIAGRAM_0\x7d\x7d!" (by decide)]
  decide

/-- C1 counterexample: the compact handler variant rejects the very same kind
of parsed object (markdown present, `diagrams` absent) with a 502 error instead
of returning a document. -/
theorem analyzeStrictRejectsMissingDiagrams :
    handleParsedA envThrow ⟨some "hello", none⟩ =
      AnalyzeResult.errorResp 502 "Invalid response structure from GPT-5.1" := rfl

/-! ### Loop lemmas for the repair claims -/

theorem dispatch_eq (env : RepairEnv) (i a : Nat) (c : String) (t : Option String)
    (k : ValKind) (hk : diagKind t = some k) :
    dispatch env i a c t = some (k, envVal env k i a c) := by
  unfold dispatch
  rw [hk]
  rfl

theorem loopGo_allfail (env : RepairEnv) (maxR i : Nat) (t : Option String) (k : ValKind)
    (resp : Nat → Response)
    (hk : diagKind t = some k)
    (hv : ∀ a c, (envVal env k i a c).valid = false)
    (hfix : ∀ a, env.fix i a = Except.ok (resp a)) :
    ∀ (n attempts : Nat) (code : String) (lastErr : Option String),
      attempts + n = maxR →
      (loopGo env maxR i t (n + 1) code attempts lastErr).code
          = (if n = 0 then code else cleanFix (resp (maxR - 1)))
      ∧ (loopGo env maxR i t (n + 1) code attempts lastErr).isValid = false
      ∧ (loopGo env maxR i t (n + 1) code attempts lastErr).lastError
          = (envVal env k i maxR
              (if n = 0 then code else cleanFix (resp (maxR - 1)))).error
      ∧ (loopGo env maxR i t (n + 1) code attempts lastErr).fixCount = n := by
  intro n
  induction n with
  | zero =>
    intro attempts code lastErr hsum
    have ha : attempts = maxR := by omega
    subst ha
    rw [loopGo, if_pos (Nat.le_refl _), dispatch_eq env i attempts code t k hk]
    dsimp only
    simp [hv, Nat.lt_irrefl]
  | succ m ih =>
    intro attempts code lastErr hsum
    have hlt : attempts < maxR := by omega
    rw [loopGo, if_pos (Nat.le_of_lt hlt), dispatch_eq env i attempts code t k hk]
    dsimp only
    rw [hfix attempts]
    have ihm := ih (attempts + 1) (cleanFix (resp attempts)) ((envVal env k i attempts code).error)
      (by omega)
    obtain ⟨ih1, ih2, ih3, ih4⟩ := ihm
    have hC : (if m = 0 then cleanFix (resp attempts) else cleanFix (resp (maxR - 1)))
        = cleanFix (resp (maxR - 1)) := by
      by_cases hm0 : m = 0
      · subst hm0
        have : attempts = maxR - 1 := by omega
        simp [this]
      · simp [hm0]
    rw [hC] at ih1 ih3
    simp [hv, hlt, ih1, ih2, ih3, ih4]

theorem loopGo_valCalls_kind (env : RepairEnv) (maxR i : Nat) (t : Option String)
    (k : ValKind) (hk : diagKind t = some k) :
    ∀ (fuel : Nat) (code : String) (attempts : Nat) (lastErr : Option String),
      ∀ c ∈ (loopGo env maxR i t fuel code attempts lastErr).valCalls, c.1 = k := by
  intro fuel
  induction fuel with
  | zero => intro code attempts lastErr c hc; simp [loopGo] at hc
  | succ fuel ih =>
    intro code attempts lastErr c hc
    rw [loopGo] at hc
    by_cases hle : attempts ≤ maxR
    · rw [if_pos hle, dispatch_eq env i attempts code t k hk] at hc
      dsimp only at hc
      by_cases hvv : (envVal env k i attempts code).valid = true
      · rw [if_pos hvv] at hc
        simp at hc
        rw [hc]
      · rw [if_neg hvv] at hc
        by_cases hlt : attempts < maxR
        · rw [if_pos hlt] at hc
          cases hfx : env.fix i attempts with
          | error e =>
            rw [hfx] at hc
            simp at hc
            rw [hc]
          | ok r =>
            rw [hfx] at hc
            simp only [List.mem_cons] at hc
            rcases hc with hc | hc
            · rw [hc]
            · exact ih _ _ _ c hc
        · rw [if_neg hlt] at hc
          simp at hc
          rw [hc]
    · rw [if_neg hle] at hc
      simp at hc

theorem loopGo_valCalls_ne (env : RepairEnv) (maxR i : Nat) (t : Option String)
    (k : ValKind) (hk : diagKind t = some k) (fuel : Nat) (code : String)
    (attempts : Nat) (lastErr : Option String) (hle : attempts ≤ maxR) :
    (loopGo env maxR i t (fuel + 1) code attempts lastErr).valCalls ≠ [] := by
  rw [loopGo, if_pos hle, dispatch_eq env i attempts code t k hk]
  dsimp only
  by_cases hvv : (envVal env k i attempts code).valid = true
  · rw [if_pos hvv]; simp
  · rw [if_neg hvv]
    by_cases hlt : attempts < maxR
    · rw [if_pos hlt]
      cases hfx : env.fix i attempts with
      | error e => simp
      | ok r => simp
    · rw [if_neg hlt]; simp

theorem processDiagram_unknown (env : RepairEnv) (maxRetries i : Nat) (d : Diagram)
    (hk : diagKind d.type = none) :
    processDiagram env maxRetries i d =
      (⟨d.type, d.code, d.position.getD (Int.ofNat i), true, none⟩, [], 0) := by
  unfold processDiagram
  have hloop : loopGo env maxRetries i d.type (maxRetries + 1) d.code 0 none =
      ⟨d.code, true, none, [], 0⟩ := by
    rw [loopGo, if_pos (Nat.zero_le maxRetries)]
    unfold dispatch
    rw [hk]
    rfl
  rw [hloop]
  rfl

/-- C2: a diagram of a known kind whose text fails validation on every attempt
drives the loop through exactly `maxRetries` repair calls (all succeeding),
after which it terminates with `valid = false`, the code equal to the cleaned
text of the final repair response, and the error equal to the (non-null) error
of the last validation. -/
theorem repairLoopExhaustsRetries (env : RepairEnv) (maxR i : Nat) (d : Diagram)
    (k : ValKind) (resp : Nat → Response)
    (hm : 0 < maxR)
    (hk : diagKind d.type = some k)
    (hv : ∀ a c, (envVal env k i a c).valid = false)
    (herr : ∀ a c, (envVal env k i a c).error ≠ none)
    (hfix : ∀ a, env.fix i a = Except.ok (resp a)) :
    (processDiagram env maxR i d).2.2 = maxR
    ∧ (processDiagram env maxR i d).1.valid = false
    ∧ (processDiagram env maxR i d).1.code = cleanFix (resp (maxR - 1))
    ∧ (processDiagram env maxR i d).1.error =
        (envVal env k i maxR (cleanFix (resp (maxR - 1)))).error
    ∧ (processDiagram env maxR i d).1.error ≠ none := by
  obtain ⟨hc, hvld, hle, hfc⟩ :=
    loopGo_allfail env maxR i d.type k resp hk hv hfix maxR 0 d.code none (by omega)
  have hne : ¬ maxR = 0 := by omega
  rw [if_neg hne] at hc hle
  unfold processDiagram
  dsimp only
  rw [hc, hvld, hle, hfc]
  refine ⟨rfl, rfl, rfl, rfl, ?_⟩
  exact herr maxR (cleanFix (resp (maxR - 1)))

/-- Witness for C2 with `maxRetries = 2`: two repair calls, then failure with
the cleaned text of the final response. -/
theorem repairLoopExhaustsRetriesWitness :
    (processDiagram envFix 2 0 ⟨some "mermaid", "graph!", none⟩).2.2 = 2
    ∧ (processDiagram envFix 2 0 ⟨some "mermaid", "graph!", none⟩).1.valid = false
    ∧ (processDiagram envFix 2 0 ⟨some "mermaid", "graph!", none⟩).1.code = "fixed code" := by
  have h := repairLoopExhaustsRetries envFix 2 0 ⟨some "mermaid", "graph!", none⟩
    ValKind.m (fun _ => ⟨none, some [⟨some ⟨some "fixed code"⟩⟩]⟩) (by decide)
    (by decide) (fun _ _ => rfl) (fun _ _ => Option.some_ne_none _) (fun _ => rfl)
  refine ⟨h.1, h.2.1, ?_⟩
  rw [h.2.2.1]
  decide

/-- C8: the result's slot index is `position ?? i` (so an explicit `position`,
including `0`, wins and the sequence index is the fallback), and the loop
dispatches to the flow-grammar validator exactly for declared type `mermaid`,
to the process-grammar validator exactly for the three alias spellings
`plantuml`/`puml`/`uml`, and to neither otherwise. -/
theorem slotIndexAndDispatch (env : RepairEnv) (maxR i : Nat) (d : Diagram) :
    (processDiagram env maxR i d).1.originalPosition = d.position.getD (Int.ofNat i)
    ∧ (∀ k, diagKind d.type = some k →
        (processDiagram env maxR i d).2.1 ≠ []
        ∧ ∀ c ∈ (processDiagram env maxR i d).2.1, c.1 = k)
    ∧ (diagKind d.type = none → (processDiagram env maxR i d).2.1 = [])
    ∧ (diagKind d.type = some ValKind.m ↔ d.type = some "mermaid")
    ∧ (diagKind d.type = some ValKind.p ↔
        (d.type = some "plantuml" ∨ d.type = some "puml" ∨ d.type = some "uml")) := by
  refine ⟨rfl, ?_, ?_, ?_, ?_⟩
  · intro k hk
    constructor
    · exact loopGo_valCalls_ne env maxR i d.type k hk maxR d.code 0 none (Nat.zero_le _)
    · exact loopGo_valCalls_kind env maxR i d.type k hk (maxR + 1) d.code 0 none
  · intro hk
    rw [processDiagram_unknown env maxR i d hk]
  · by_cases h1 : d.type = some "mermaid"
    · simp [diagKind, h1]
    · by_cases h2 : d.type = some "plantuml" ∨ d.type = some "puml" ∨ d.type = some "uml"
      · simp [diagKind, h1, h2]
      · simp [diagKind, h1, h2]
  · by_cases h1 : d.type = some "mermaid"
    · simp [diagKind, h1]
    · by_cases h2 : d.type = some "plantuml" ∨ d.type = some "puml" ∨ d.type = some "uml"
      · simp [diagKind, h1, h2]
      · simp [diagKind, h1, h2]

/-- Witness for C8: an explicit position `0` is kept, and a `puml` entry is
dispatched (to the process-grammar validator) at least once. -/
theorem slotIndexAndDispatchWitness :
    (processDiagram envThrow 2 7 ⟨some "puml", "@startuml", some 0⟩).1.originalPosition = 0
    ∧ (processDiagram envThrow 2 7 ⟨some "puml", "@startuml", some 0⟩).2.1 ≠ [] := by
  have h := slotIndexAndDispatch envThrow 2 7 ⟨some "puml", "@startuml", some 0⟩
  refine ⟨?_, (h.2.1 ValKind.p (by decide)).1⟩
  rw [h.1]
  decide

/-- C7: when a repair call rejects, the loop for that diagram stops at once,
keeping the current text, `valid = false` and the error of the validation that
triggered the repair; and `validateAndFixDiagrams` still yields exactly one
result per input entry, in input order, each depending only on its own entry —
so sibling diagrams and the request as a whole are unaffected. -/
theorem repairCallFailureIsolation (env : RepairEnv) (maxR : Nat) (ds : List Diagram)
    (i : Nat) (t : Option String) (k : ValKind) (msg : String)
    (attempts : Nat) (code : String) (lastErr : Option String) (fuel : Nat)
    (hk : diagKind t = some k)
    (ha : attempts < maxR)
    (hv : (envVal env k i attempts code).valid = false)
    (hf : env.fix i attempts = Except.error msg) :
    loopGo env maxR i t (fuel + 1) code attempts lastErr =
      ⟨code, false, (envVal env k i attempts code).error, [(k, code)], 1⟩
    ∧ (validateAndFixDiagrams env maxR ds).length = ds.length
    ∧ (∀ j, (validateAndFixDiagrams env maxR ds)[j]? =
        (ds[j]?).map (fun dj => (processDiagram env maxR j dj).1)) := by
  refine ⟨?_, ?_, ?_⟩
  · rw [loopGo, if_pos (Nat.le_of_lt ha), dispatch_eq env i attempts code t k hk]
    dsimp only
    rw [hf]
    simp [hv, ha]
  · simp [validateAndFixDiagrams]
  · intro j
    simp only [validateAndFixDiagrams, List.getElem?_map, List.enum_eq_enumFrom,
      List.getElem?_enumFrom, Nat.zero_add, Option.map_map]
    cases ds[j]? with
    | none => rfl
    | some dj => rfl

/-- Witness for C7: a rejecting repair call at the first attempt of a mermaid
diagram. -/
theorem repairCallFailureIsolationWitness :
    loopGo envThrow 2 0 (some "mermaid") 3 "graph!" 0 none =
      ⟨"graph!", false, some "bad m", [(ValKind.m, "graph!")], 1⟩
    ∧ (validateAndFixDiagrams envThrow 2 [⟨some "mermaid", "graph!", none⟩]).length = 1 := by
  have h := repairCallFailureIsolation envThrow 2 [⟨some "mermaid", "graph!", none⟩]
    0 (some "mermaid") ValKind.m "network down" 0 "graph!" none 2
    (by decide) (by decide) rfl rfl
  exact ⟨h.1, h.2.1⟩

/-! ### Assembly lemmas and the assembly claims -/

theorem placeholderOf_nat (d : RepairedDiagram) (p : Nat)
    (hp : d.originalPosition = Int.ofNat p) : placeholderOf d = natPlaceholder p := by
  unfold placeholderOf natPlaceholder
  rw [hp]
  rfl

theorem splitFirst_placeholder_none (p : Nat) (s : String)
    (h : containsToken s.toList = false) :
    splitFirst (natPlaceholder p).toList s.toList = none := by
  cases hsf : splitFirst (natPlaceholder p).toList s.toList with
  | none => rfl
  | some pr =>
    obtain ⟨a, b⟩ := pr
    have hdec := splitFirst_append _ _ _ _ hsf
    have hm : (matchToken ((natPlaceholder p).toList ++ b)).isSome = true := by
      rw [matchToken_natPlaceholder]
      rfl
    have hct := containsToken_append a _ hm
    rw [← List.append_assoc, ← hdec] at hct
    rw [hct] at h
    exact absurd h (by simp)

theorem foldl_fixed {α β : Type} (f : α → β → α) (o : α) :
    ∀ (l : List β), (∀ d ∈ l, f o d = o) → l.foldl f o = o := by
  intro l
  induction l with
  | nil => intro _; rfl
  | cons d l ih =>
    intro h
    have hd : f o d = o := h d (by simp)
    simp only [List.foldl, hd]
    exact ih (fun x hx => h x (by simp [hx]))

/-- C6 (amended): provided every slot index is a natural number and the
assembled output contains no placeholder token (i.e. the cleanup pass did not
concatenate surrounding text into a fresh token), assembling the output again
with the same diagram list is the identity, byte for byte. -/
theorem assembleIdempotentOfTokenFree (t : String) (ds : List RepairedDiagram)
    (hpos : ∀ d ∈ ds, ∃ p : Nat, d.originalPosition = Int.ofNat p)
    (htf : containsToken (assembleMarkdown t ds).toList = false) :
    assembleMarkdown (assembleMarkdown t ds) ds = assembleMarkdown t ds := by
  have hsub : substituteAll (assembleMarkdown t ds) ds = assembleMarkdown t ds := by
    unfold substituteAll
    apply foldl_fixed
    intro d hd
    obtain ⟨p, hp⟩ := hpos d hd
    apply jsReplaceFirst_of_not_found
    rw [placeholderOf_nat d p hp]
    exact splitFirst_placeholder_none p _ htf
  calc assembleMarkdown (assembleMarkdown t ds) ds
      = jsCleanup (substituteAll (assembleMarkdown t ds) ds) := rfl
    _ = jsCleanup (assembleMarkdown t ds) := by rw [hsub]
    _ = assembleMarkdown t ds := by
        unfold jsCleanup
        rw [cleanupGo_of_no_token _ htf]
        exact string_mk_toList _

/-- Witness for C6: one mermaid diagram at slot 0 replacing its only
placeholder; the output is token-free and re-assembly is the identity. -/
theorem assembleIdempotentOfTokenFreeWitness :
    assembleMarkdown
        (assembleMarkdown "intro \x7b\x7bDIAGRAM_0\x7d\x7d outro"
          [⟨some "mermaid", "graph TD", 0, true, none⟩])
        [⟨some "mermaid", "graph TD", 0, true, none⟩]
      = assembleMarkdown "intro \x7b\x7bDIAGRAM_0\x7d\x7d outro"
          [⟨some "mermaid", "graph TD", 0, true, none⟩] := by
  apply assembleIdempotentOfTokenFree
  · intro d hd
    simp only [List.mem_singleton] at hd
    subst hd
    exact ⟨0, rfl⟩
  · decide

/-- C6 counterexample: removing the inner token of
`{{DIAGRAM_{{DIAGRAM_1}}0}}` concatenates the surrounding text into the fresh
token `{{DIAGRAM_0}}`, so the assembled output does contain a placeholder token
and assembling it again (even with the empty diagram list) changes it. -/
theorem assembleNotIdempotent :
    assembleMarkdown
        (assembleMarkdown "\x7b\x7bDIAGRAM_\x7b\x7bDIAGRAM_1\x7d\x7d0\x7d\x7d" []) []
      ≠ assembleMarkdown "\x7b\x7bDIAGRAM_\x7b\x7bDIAGRAM_1\x7d\x7d0\x7d\x7d" []
    ∧ containsToken
        (assembleMarkdown "\x7b\x7bDIAGRAM_\x7b\x7bDIAGRAM_1\x7d\x7d0\x7d\x7d" []).toList
      = true := by
  decide

/-- C10: when a diagram's placeholder token occurs more than once in the
template (first occurrence split off by `hsplit`, another occurrence inside
`b`), the substitution pass rewrites only the first occurrence — the output is
literally `before ++ block ++ after` with the later occurrences still inside
`after` — and whenever the final output is token-free, the cleanup pass has
deleted every remaining occurrence of that placeholder. -/
theorem substituteFirstOccurrenceOnly (t a b : String) (d : RepairedDiagram) (p : Nat)
    (hp : d.originalPosition = Int.ofNat p)
    (hsplit : splitFirst (placeholderOf d).toList t.toList = some (a.toList, b.toList))
    (hb : strIncludes b (placeholderOf d) = true)
    (hdollar : ∀ c ∈ (renderBlock d).toList, ¬ c = '$') :
    substituteAll t [d] = a ++ renderBlock d ++ b
    ∧ strIncludes (substituteAll t [d]) (placeholderOf d) = true
    ∧ (containsToken (assembleMarkdown t [d]).toList = false →
        strIncludes (assembleMarkdown t [d]) (placeholderOf d) = false) := by
  have h1 : substituteAll t [d] = a ++ renderBlock d ++ b := by
    show jsReplaceFirst t (placeholderOf d) (renderBlock d) = a ++ renderBlock d ++ b
    unfold jsReplaceFirst
    rw [hsplit]
    apply String.ext
    show a.toList ++ processRepl a.toList (placeholderOf d).toList b.toList
        (renderBlock d).toList ++ b.toList = (a ++ renderBlock d ++ b).data
    rw [processRepl_of_no_dollar _ _ _ _ hdollar]
    simp [String.data_append, String.toList]
  refine ⟨h1, ?_, ?_⟩
  · rw [h1]
    have hbs : (splitFirst (placeholderOf d).toList b.toList).isSome = true := hb
    cases hsf : splitFirst (placeholderOf d).toList b.toList with
    | none => rw [hsf] at hbs; exact absurd hbs (by simp)
    | some pr =>
      obtain ⟨u, v⟩ := pr
      have hdec := splitFirst_append _ _ _ _ hsf
      show (splitFirst (placeholderOf d).toList ((a ++ renderBlock d ++ b)).toList).isSome
          = true
      rw [string_toList_append, string_toList_append, hdec]
      have := splitFirst_isSome_of_parts (placeholderOf d).toList
        (a.toList ++ (renderBlock d).toList ++ u) v
      simpa [List.append_assoc] using this
  · intro htf
    show (splitFirst (placeholderOf d).toList (assembleMarkdown t [d]).toList).isSome
        = false
    rw [placeholderOf_nat d p hp, splitFirst_placeholder_none p _ htf]
    rfl

/-- Witness for C10: a template with the slot-0 placeholder twice; only the
first is replaced by the substitution pass, and the cleanup pass removes the
second from the final output. -/
theorem substituteFirstOccurrenceOnlyWitness :
    substituteAll "A \x7b\x7bDIAGRAM_0\x7d\x7d B \x7b\x7bDIAGRAM_0\x7d\x7d C"
        [⟨some "mermaid", "graph", 0, true, none⟩]
      = "A " ++ renderBlock ⟨some "mermaid", "graph", 0, true, none⟩
          ++ " B \x7b\x7bDIAGRAM_0\x7d\x7d C"
    ∧ strIncludes
        (assembleMarkdown "A \x7b\x7bDIAGRAM_0\x7d\x7d B \x7b\x7bDIAGRAM_0\x7d\x7d C"
          [⟨some "mermaid", "graph", 0, true, none⟩])
        (placeholderOf ⟨some "mermaid", "graph", 0, true, none⟩) = false := by
  have h := substituteFirstOccurrenceOnly
    "A \x7b\x7bDIAGRAM_0\x7d\x7d B \x7b\x7bDIAGRAM_0\x7d\x7d C"
    "A " " B \x7b\x7bDIAGRAM_0\x7d\x7d C"
    ⟨some "mermaid", "graph", 0, true, none⟩ 0
    rfl (by decide) (by decide) (by decide)
  exact ⟨h.1, h.2.2 (by decide)⟩

end Syntra
